import Mathlib

/-!
Shallow embedding of the static-file-serving middleware
(`src/server/http/serveStatic.ts`) and proofs of the specification's
claims about it.  JavaScript strings are modelled as Lean `String`
(lists of characters), machine numbers as `Int`/`Nat`, the filesystem
and the MIME lookup as injected capabilities (the design document
itself treats them as injectable), and fallible paths as `Option` /
`Except`.
-/

namespace ServeStatic

/-! ## JavaScript string primitives -/

/-- The character class matched by JavaScript `\s` (whitespace and line
terminators), as used by `String.prototype.trim` and by the leading
whitespace skip of `parseInt`. -/
def isJsWs (c : Char) : Bool :=
  c.toNat = 9 || c.toNat = 10 || c.toNat = 11 || c.toNat = 12 || c.toNat = 13 ||
  c.toNat = 32 || c.toNat = 0xA0 || c.toNat = 0x1680 ||
  (0x2000 ≤ c.toNat && c.toNat ≤ 0x200A) ||
  c.toNat = 0x2028 || c.toNat = 0x2029 || c.toNat = 0x202F ||
  c.toNat = 0x205F || c.toNat = 0x3000 || c.toNat = 0xFEFF

/-- Decimal digit test (`[0-9]`). -/
def isDigitCh (c : Char) : Bool :=
  48 ≤ c.toNat && c.toNat ≤ 57

/-- `String.prototype.trim`. -/
def jsTrim (s : String) : String :=
  ⟨((s.data.dropWhile isJsWs).reverse.dropWhile isJsWs).reverse⟩

/-- Value of a hexadecimal digit character, `none` when not a hex digit. -/
def hexVal (c : Char) : Option Nat :=
  if 48 ≤ c.toNat ∧ c.toNat ≤ 57 then some (c.toNat - 48)
  else if 65 ≤ c.toNat ∧ c.toNat ≤ 70 then some (c.toNat - 55)
  else if 97 ≤ c.toNat ∧ c.toNat ≤ 102 then some (c.toNat - 87)
  else none

/-! ## `decodeURIComponent`

A `%XX` escape contributes the byte `XX`; escaped bytes must form valid
(strict, shortest-form) UTF-8.  A malformed escape or invalid UTF-8
raises `URIError`, modelled as `none`.  Unescaped characters pass
through unchanged. -/

/-- A lexed unit of an URI-encoded string: either a literal character or
a byte contributed by a `%XX` escape. -/
inductive Tok where
  | lit (c : Char)
  | byte (b : Nat)
deriving DecidableEq, Repr

/-- Lex a character list into literal characters and escape bytes;
`none` when a `%` is not followed by two hexadecimal digits. -/
def tokenize : List Char → Option (List Tok)
  | [] => some []
  | '%' :: rest =>
    match rest with
    | h1 :: h2 :: rest2 =>
      match hexVal h1, hexVal h2 with
      | some a, some b => (tokenize rest2).map (fun ts => Tok.byte (16 * a + b) :: ts)
      | _, _ => none
    | _ => none
  | c :: rest => (tokenize rest).map (fun ts => Tok.lit c :: ts)

/-- Lower bound for the first continuation byte of a three-byte UTF-8
sequence with the given lead byte (shortest-form / surrogate rules). -/
def threeLo (b : Nat) : Nat := if b = 0xE0 then 0xA0 else 0x80

/-- Upper bound for the first continuation byte of a three-byte UTF-8
sequence with the given lead byte. -/
def threeHi (b : Nat) : Nat := if b = 0xED then 0x9F else 0xBF

/-- Lower bound for the first continuation byte of a four-byte UTF-8
sequence with the given lead byte. -/
def fourLo (b : Nat) : Nat := if b = 0xF0 then 0x90 else 0x80

/-- Upper bound for the first continuation byte of a four-byte UTF-8
sequence with the given lead byte. -/
def fourHi (b : Nat) : Nat := if b = 0xF4 then 0x8F else 0xBF

/-- Decode the token stream: literal characters pass through, runs of
escape bytes are decoded as strict UTF-8. -/
def decodeToks : List Tok → Option (List Char)
  | [] => some []
  | Tok.lit c :: rest => (decodeToks rest).map (fun cs => c :: cs)
  | Tok.byte b :: rest =>
    if b < 0x80 then
      (decodeToks rest).map (fun cs => Char.ofNat b :: cs)
    else if 0xC2 ≤ b ∧ b ≤ 0xDF then
      match rest with
      | Tok.byte c1 :: rest1 =>
        if 0x80 ≤ c1 ∧ c1 ≤ 0xBF then
          (decodeToks rest1).map (fun cs =>
            Char.ofNat ((b - 0xC0) * 64 + (c1 - 0x80)) :: cs)
        else none
      | _ => none
    else if 0xE0 ≤ b ∧ b ≤ 0xEF then
      match rest with
      | Tok.byte c1 :: Tok.byte c2 :: rest2 =>
        if (threeLo b ≤ c1 ∧ c1 ≤ threeHi b) ∧ (0x80 ≤ c2 ∧ c2 ≤ 0xBF) then
          (decodeToks rest2).map (fun cs =>
            Char.ofNat ((b - 0xE0) * 4096 + (c1 - 0x80) * 64 + (c2 - 0x80)) :: cs)
        else none
      | _ => none
    else if 0xF0 ≤ b ∧ b ≤ 0xF4 then
      match rest with
      | Tok.byte c1 :: Tok.byte c2 :: Tok.byte c3 :: rest3 =>
        if (fourLo b ≤ c1 ∧ c1 ≤ fourHi b) ∧ (0x80 ≤ c2 ∧ c2 ≤ 0xBF) ∧
            (0x80 ≤ c3 ∧ c3 ≤ 0xBF) then
          (decodeToks rest3).map (fun cs =>
            Char.ofNat ((b - 0xF0) * 262144 + (c1 - 0x80) * 4096 +
              (c2 - 0x80) * 64 + (c3 - 0x80)) :: cs)
        else none
      | _ => none
    else none

/-- JavaScript `decodeURIComponent`; `none` models a thrown `URIError`. -/
def decodeURIComponent (s : String) : Option String :=
  match tokenize s.data with
  | none => none
  | some ts =>
    match decodeToks ts with
    | none => none
    | some cs => some ⟨cs⟩

/-! ## Path-traversal test

The source tests the decoded path against the regular expression
regex (caret-or-separator) dot dot (end-or-separator), i.e. a `..`
segment bounded by `/` or `\` or the string start/end
(serveStatic.ts line 87). -/

/-- Path-separator characters recognised by the traversal regex. -/
def isSep (c : Char) : Bool := c = '/' || c = '\\'

/-- Does the list start with `..` followed by the string end or a
separator? -/
def dotsAt : List Char → Bool
  | '.' :: '.' :: [] => true
  | '.' :: '.' :: c :: _ => isSep c
  | _ => false

/-- Scan for a traversal segment; the flag records whether the current
position is the string start or just after a separator. -/
def travScan : Bool → List Char → Bool
  | _, [] => false
  | atB, c :: rest => (atB && dotsAt (c :: rest)) || travScan (isSep c) rest

/-- The traversal regex of serveStatic.ts line 87 as a Boolean test. -/
def hasTraversal (s : String) : Bool := travScan true s.data

/-! ## Range-header parsing (serveStatic.ts lines 163-165)

`range.replace(/bytes=/, "").split("-", 2)` followed by
`parseInt(parts[i], 10) || default`. -/

/-- Remove the first occurrence of `pat` from the list (JavaScript
`String.prototype.replace` with a plain-text pattern and empty
replacement); the list is unchanged when `pat` does not occur. -/
def replaceFirstSub (pat : List Char) : List Char → List Char
  | [] => []
  | c :: rest =>
    if pat.isPrefixOf (c :: rest) then (c :: rest).drop pat.length
    else c :: replaceFirstSub pat rest

/-- Split at the first `-`: the characters before it, and the characters
after it (`none` when there is no `-`). -/
def breakAtDash : List Char → List Char × Option (List Char)
  | [] => ([], none)
  | c :: rest =>
    if c = '-' then ([], some rest)
    else
      let p := breakAtDash rest
      (c :: p.1, p.2)

/-- JavaScript `s.split("-", 2)`: the first two elements of the full
split, the second being `none` when the string has no `-`. -/
def splitDashTwo (s : List Char) : List Char × Option (List Char) :=
  match breakAtDash s with
  | (p0, none) => (p0, none)
  | (p0, some r) => (p0, some (breakAtDash r).1)

/-- Numeric value of a list of decimal digit characters. -/
def digitsVal (ds : List Char) : Nat :=
  ds.foldl (fun a c => 10 * a + (c.toNat - 48)) 0

/-- Value of the longest decimal-digit prefix; `none` when there is no
leading digit (`parseInt` returns `NaN`). -/
def natPrefixVal (s : List Char) : Option Nat :=
  let ds := s.takeWhile isDigitCh
  if ds.isEmpty then none else some (digitsVal ds)

/-- JavaScript `parseInt(s, 10)`: skip leading whitespace, an optional
sign, then the longest digit prefix; `none` models `NaN`. -/
def jsParseInt (s : List Char) : Option Int :=
  match s.dropWhile isJsWs with
  | [] => none
  | c :: r =>
    if c = '-' then (natPrefixVal r).map (fun n => -(Int.ofNat n))
    else if c = '+' then (natPrefixVal r).map (fun n => Int.ofNat n)
    else (natPrefixVal (c :: r)).map (fun n => Int.ofNat n)

/-- JavaScript `x || d` for a number `x` that may be `NaN` (`none`):
`NaN` and `0` are falsy, so both select the default. -/
def jsOr (v : Option Int) (d : Int) : Int :=
  match v with
  | none => d
  | some n => if n = 0 then d else n

/-- The two parts of `range.replace(/bytes=/, "").split("-", 2)`. -/
def rangeParts (range : List Char) : List Char × Option (List Char) :=
  splitDashTwo (replaceFirstSub "bytes=".data range)

/-- `const start = parseInt(parts[0], 10) || 0` (line 164). -/
def parsedStart (range : String) : Int :=
  jsOr (jsParseInt (rangeParts range.data).1) 0

/-- `let end = parseInt(parts[1], 10) || size - 1` (line 165);
`parseInt(undefined)` is `NaN`, hence the default when the part is
absent. -/
def parsedEnd (range : String) (size : Int) : Int :=
  match (rangeParts range.data).2 with
  | none => size - 1
  | some p1 => jsOr (jsParseInt p1) (size - 1)

/-- `if (size < end - start + 1) end = size - 1` (lines 166-168). -/
def clampedEnd (range : String) (size : Int) : Int :=
  let e0 := parsedEnd range size
  if size < e0 - parsedStart range + 1 then size - 1 else e0

/-! ## POSIX `path.join` (Node `node:path`) -/

/-- Split a character list into segments at `/`. -/
def splitSegsAux (cur : List Char) : List Char → List String
  | [] => [⟨cur.reverse⟩]
  | c :: rest =>
    if c = '/' then ⟨cur.reverse⟩ :: splitSegsAux [] rest
    else splitSegsAux (c :: cur) rest

/-- Join segments with `/`. -/
def joinSegs : List String → String
  | [] => ""
  | [s] => s
  | s :: rest => s ++ "/" ++ joinSegs rest

/-- Normalisation of path segments: drop empty and `.` segments, let
`..` pop the previous real segment (at the root it is dropped for an
absolute path and kept for a relative one). -/
def normSegs (isAbs : Bool) (acc : List String) : List String → List String
  | [] => acc.reverse
  | seg :: rest =>
    if seg = "" ∨ seg = "." then normSegs isAbs acc rest
    else if seg = ".." then
      match acc with
      | [] => if isAbs then normSegs isAbs [] rest else normSegs isAbs [".."] rest
      | top :: acc2 =>
        if top = ".." then normSegs isAbs (".." :: top :: acc2) rest
        else normSegs isAbs acc2 rest
    else normSegs isAbs (seg :: acc) rest

/-- Does the string start with `/`? -/
def startsSlash (s : String) : Bool :=
  match s.data with
  | '/' :: _ => true
  | _ => false

/-- Does the string end with `/`? -/
def endsSlash (s : String) : Bool :=
  match s.data.getLast? with
  | some '/' => true
  | _ => false

/-- POSIX `path.normalize`. -/
def pathNormalize (s : String) : String :=
  if s = "" then "."
  else
    let isAbs := startsSlash s
    let trail := endsSlash s
    let core := joinSegs (normSegs isAbs [] (splitSegsAux [] s.data))
    let base :=
      if isAbs then (if core = "" then "/" else "/" ++ core)
      else (if core = "" then "." else core)
    if trail ∧ ¬ endsSlash base then base ++ "/" else base

/-- POSIX `path.join` of two components. -/
def pathJoin (a b : String) : String :=
  if a = "" then (if b = "" then "." else pathNormalize b)
  else if b = "" then pathNormalize a
  else pathNormalize (a ++ "/" ++ b)

/-! ## The compressible-content-type classification

`COMPRESSIBLE_CONTENT_TYPE_REGEX` (serveStatic.ts lines 18-19) as a
Boolean function: the regex is anchored at the start (after optional
whitespace), case-insensitive, and `test` asks for the existence of a
match, so it is equivalent to the disjunction of its alternatives with
each alternative followed by `;`, whitespace, or the string end. -/

/-- A character that terminates an alternative of the compressible
regex: `;` or whitespace (the regex's trailing `[;\s]`). -/
def isTermCh (c : Char) : Bool := c = ';' || isJsWs c

/-- The string end or a terminator character. -/
def termOk : List Char → Bool
  | [] => true
  | c :: _ => isTermCh c

/-- Does `s` start with the literal word `w` followed by a terminator or
the string end? -/
def wordTermAt (w : List Char) (s : List Char) : Bool :=
  w.isPrefixOf s && termOk (s.drop w.length)

/-- The suffix words of the `+`-alternative: `+json`, `+text`, `+xml`,
`+yaml`. -/
def plusWords : List (List Char) :=
  ["json".data, "text".data, "xml".data, "yaml".data]

/-- Scan (after at least one non-terminator character has been
consumed) for a `+` followed by a suffix word and a terminator, crossing
only non-terminator characters. -/
def plusScan : List Char → Bool
  | [] => false
  | c :: rest =>
    if isTermCh c then false
    else (c = '+' && plusWords.any (fun w => wordTermAt w rest)) || plusScan rest

/-- The regex alternative for a plus-suffixed subtype
(one or more non-terminator characters, then a plus, then a word). -/
def plusBranch : List Char → Bool
  | [] => false
  | c :: rest => !isTermCh c && plusScan rest

/-- The subtype words of the `application/` alternative. -/
def appWords : List (List Char) :=
  ["javascript".data, "json".data, "xml".data, "xml-dtd".data,
   "ecmascript".data, "dart".data, "postscript".data, "rtf".data,
   "tar".data, "toml".data, "vnd.dart".data, "vnd.ms-fontobject".data,
   "vnd.ms-opentype".data, "wasm".data, "x-httpd-php".data,
   "x-javascript".data, "x-ns-proxy-autoconfig".data, "x-sh".data,
   "x-tar".data, "x-virtualbox-hdd".data, "x-virtualbox-ova".data,
   "x-virtualbox-ovf".data, "x-virtualbox-vbox".data,
   "x-virtualbox-vdi".data, "x-virtualbox-vhd".data,
   "x-virtualbox-vmdk".data, "x-www-form-urlencoded".data]

/-- The subtype words of the `image/` alternative. -/
def imageWords : List (List Char) :=
  ["bmp".data, "vnd.adobe.photoshop".data, "vnd.microsoft.icon".data,
   "vnd.ms-dds".data, "x-icon".data, "x-ms-bmp".data]

/-- Does the list start with the literal `pre` followed by one of the
words of `ws` and a terminator? -/
def prefixedWord (pre : List Char) (ws : List (List Char)) (t : List Char) : Bool :=
  ws.any (fun w => wordTermAt (pre ++ w) t)

/-- The `text/[^;\s]+` alternative: the literal `text/` followed by at
least one non-terminator character (the greedy span then ends at a
terminator or the string end). -/
def textBranch (t : List Char) : Bool :=
  "text/".data.isPrefixOf t &&
    (match t.drop 5 with
     | [] => false
     | c :: _ => !isTermCh c)

/-- `COMPRESSIBLE_CONTENT_TYPE_REGEX.test` (case-insensitive, anchored
after optional leading whitespace). -/
def compressibleTest (s : String) : Bool :=
  let t := (s.data.map Char.toLower).dropWhile isJsWs
  textBranch t ||
  prefixedWord "application/".data appWords t ||
  prefixedWord "font/".data ["otf".data, "ttf".data] t ||
  prefixedWord "image/".data imageWords t ||
  wordTermAt "message/rfc822".data t ||
  wordTermAt "model/gltf-binary".data t ||
  wordTermAt "x-shader/x-fragment".data t ||
  wordTermAt "x-shader/x-vertex".data t ||
  plusBranch t

/-! ## Data model -/

/-- The stat metadata the handler reads (`lstatSync` result):
directory flag, byte size, and the creation time already rendered by
`toUTCString` (the only form the handler uses, line 161). -/
structure Stats where
  isDirectory : Bool
  size : Nat
  birthtimeUTC : String
deriving DecidableEq, Repr

/-- The parts of the incoming request the handler reads: method, URL
pathname, and the `Range` and `Accept-Encoding` headers. -/
structure Request where
  method : String
  pathname : String
  rangeHeader : Option String
  acceptEncoding : Option String
deriving DecidableEq, Repr

/-- A response body: empty (`null`), a text constant, or a lazily
streamed file, optionally restricted to an inclusive byte range
(`createReadStream(path, { start, end })`). -/
inductive Body where
  | empty
  | text (s : String)
  | fileStream (path : String) (range : Option (Int × Int))
deriving DecidableEq, Repr

/-- Header list (insertion-ordered, as in the `Headers` object). -/
abbrev Headers := List (String × String)

/-- An HTTP response. -/
structure Response where
  status : Nat
  headers : Headers
  body : Body
deriving DecidableEq, Repr

/-- The ambient capabilities of the handler: `getStats` (an `lstatSync`
that returns `none` on any error, lines 50-56) and `getMimeType` from
`./mime`, whose source is not part of the analysed tree; the design
document prescribes treating both as injectable. -/
structure Caps where
  fs : String → Option Stats
  mime : String → Option String

/-- `ServeStaticOptions`: the construction-time configuration
(serveStatic.ts lines 6-16), over an opaque environment type. -/
structure Config (ε : Type) where
  root : Option String := none
  path : Option String := none
  index : Option String := none
  precompressed : Bool := false
  rewriteRequestPath : Option (String → String) := none
  onNotFound : Option (Request → ε → Response) := none

/-- The exceptions that can escape the returned handler: the
`ReferenceError` raised by the undefined identifier `c` on line 98, and
the `ERR_OUT_OF_RANGE` (a `RangeError`) raised synchronously by
`createReadStream(path, { start, end })` on line 171 when the node:fs
option validation fails (`start < 0`, `end < 0`, or `start > end`);
neither is caught by the source. -/
inductive JsErr where
  | referenceError
  | rangeError
deriving DecidableEq, Repr

/-- `const root = options.root || ""` (line 62). -/
def rootOf {ε : Type} (cfg : Config ε) : String := cfg.root.getD ""

/-- The not-found collaborator: the configured `onNotFound` or the
default `new Response("Not Found", { status: 404 })` (lines 65-69). -/
def onNotFoundResp {ε : Type} (cfg : Config ε) (req : Request) (env : ε) : Response :=
  match cfg.onNotFound with
  | some f => f req env
  | none => { status := 404, headers := [], body := Body.text "Not Found" }

/-! ## Header operations (`Headers.set` / `append` / `get`) -/

/-- `Headers.set`: replace the value of an existing header or add it. -/
def headerSet : Headers → String → String → Headers
  | [], k, v => [(k, v)]
  | (k2, v2) :: rest, k, v =>
    if k2 = k then (k, v) :: rest else (k2, v2) :: headerSet rest k v

/-- `Headers.append`: combine with an existing value (comma-joined) or
add the header. -/
def headerAppend : Headers → String → String → Headers
  | [], k, v => [(k, v)]
  | (k2, v2) :: rest, k, v =>
    if k2 = k then (k2, v2 ++ ", " ++ v) :: rest
    else (k2, v2) :: headerAppend rest k v

/-- `Headers.get`. -/
def headerGet : Headers → String → Option String
  | [], _ => none
  | (k2, v2) :: rest, k => if k2 = k then some v2 else headerGet rest k

/-! ## Precompression negotiation (serveStatic.ts lines 119-143) -/

/-- Split a character list into strings at `,`. -/
def splitCommaAux (cur : List Char) : List Char → List String
  | [] => [⟨cur.reverse⟩]
  | c :: rest =>
    if c = ',' then ⟨cur.reverse⟩ :: splitCommaAux [] rest
    else splitCommaAux (c :: cur) rest

/-- The set of tokens of the `Accept-Encoding` header: split at commas
and trim each token; the empty set when the header is absent
(lines 123-128). -/
def acceptSet (req : Request) : List String :=
  match req.acceptEncoding with
  | none => []
  | some h => (splitCommaAux [] h.data).map jsTrim

/-- The `ENCODINGS` table in its fixed declaration order
(lines 20-27). -/
def encodingsOrdered : List (String × String) :=
  [("br", ".br"), ("zstd", ".zst"), ("gzip", ".gz")]

/-- Walk the encoding table in order; for the first entry whose token is
accepted and whose suffixed sibling file exists, return the entry and
the sibling's stats (the loop of lines 130-142). -/
def findEncoding (caps : Caps) (accept : List String) (path : String) :
    List (String × String) → Option (String × String × Stats)
  | [] => none
  | (name, suffix) :: rest =>
    if accept.contains name then
      match caps.fs (path ++ suffix) with
      | some st => some (name, suffix, st)
      | none => findEncoding caps accept path rest
    else findEncoding caps accept path rest

/-! ## Response assembly (serveStatic.ts lines 145-177) -/

/-- Headers-only response for `HEAD`/`OPTIONS` (lines 147-150). -/
def headResponse (st : Stats) (hs : Headers) : Response :=
  { status := 200
    headers := headerSet hs "Content-Length" (toString ((st.size : Int)))
    body := Body.empty }

/-- Full-body response when no `Range` header is present
(lines 154-158). -/
def fullResponse (path : String) (st : Stats) (hs : Headers) : Response :=
  { status := 200
    headers := headerSet hs "Content-Length" (toString ((st.size : Int)))
    body := Body.fileStream path none }

/-- The 206 partial-content response assembled on lines 160-176, for
the case where the stream construction succeeds. -/
def rangeOkResponse (path : String) (st : Stats) (hs : Headers) (r : String) : Response :=
  let size : Int := st.size
  let s := parsedStart r
  let e := clampedEnd r size
  { status := 206
    headers :=
      headerSet
        (headerSet
          (headerSet (headerSet hs "Accept-Ranges" "bytes") "Date" st.birthtimeUTC)
          "Content-Length" (toString (e - s + 1)))
        "Content-Range"
        ("bytes " ++ toString s ++ "-" ++ toString e ++ "/" ++ toString size)
    body := Body.fileStream path (some (s, e)) }

/-- The `Range`-header branch (lines 160-176).  Before any response can
be produced, `createReadStream(path, { start, end })` on line 171
validates its options (node:fs `ReadStream`): a negative `start`, a
negative `end`, or `start > end` raises `ERR_OUT_OF_RANGE`
synchronously, and the source does not catch it, so the handler throws
instead of responding. -/
def rangeResponse (path : String) (st : Stats) (hs : Headers) (r : String) :
    Except JsErr Response :=
  let size : Int := st.size
  let s := parsedStart r
  let e := clampedEnd r size
  if s < 0 ∨ e < 0 ∨ e < s then Except.error JsErr.rangeError
  else Except.ok (rangeOkResponse path st hs r)

/-- Branch on the method and the `Range` header (lines 147-176);
`req.headers.get("range") || ""` treats an absent or empty header the
same. -/
def respond (req : Request) (path : String) (st : Stats) (hs : Headers) :
    Except JsErr Response :=
  if req.method = "HEAD" ∨ req.method = "OPTIONS" then Except.ok (headResponse st hs)
  else
    let range := req.rangeHeader.getD ""
    if range = "" then Except.ok (fullResponse path st hs)
    else rangeResponse path st hs range

/-- Serve a statted target: MIME lookup, `Content-Type`, the
precompression branch, then response assembly (lines 114-176). -/
def serveFile {ε : Type} (caps : Caps) (cfg : Config ε) (req : Request)
    (path : String) (st : Stats) : Except JsErr Response :=
  let m := caps.mime path
  let h0 : Headers := [("Content-Type", m.getD "application/octet-stream")]
  if cfg.precompressed &&
      (match m with
       | none => true
       | some mt => compressibleTest mt) then
    match findEncoding caps (acceptSet req) path encodingsOrdered with
    | some (name, suffix, st2) =>
      respond req (path ++ suffix) st2
        (headerAppend (headerSet h0 "Content-Encoding" name) "Vary" "Accept-Encoding")
    | none => respond req path st h0
  else respond req path st h0

/-- Stat the joined path; a directory gets the configured index file
appended and is re-statted once; a missing target goes to the not-found
collaborator (lines 102-112). -/
def serveResolved {ε : Type} (caps : Caps) (cfg : Config ε) (req : Request)
    (env : ε) (p0 : String) : Except JsErr Response :=
  match caps.fs p0 with
  | none => Except.ok (onNotFoundResp cfg req env)
  | some st =>
    if st.isDirectory then
      let p1 := pathJoin p0 (cfg.index.getD "index.html")
      match caps.fs p1 with
      | none => Except.ok (onNotFoundResp cfg req env)
      | some st1 => serveFile caps cfg req p1 st1
    else serveFile caps cfg req p0 st

/-- The handler returned by `serveStatic` (lines 77-177).  A fixed
`path` option bypasses URL decoding and the rewrite; otherwise the URL
pathname is decoded (`URIError` goes to the not-found collaborator), the
decoded form is tested for a traversal segment, and then — because
line 98 passes the undefined identifier `c` to `rewriteRequestPath` — a
configured rewrite function raises a `ReferenceError` before any join
happens. -/
def handle {ε : Type} (caps : Caps) (cfg : Config ε) (req : Request) (env : ε) :
    Except JsErr Response :=
  match cfg.path with
  | some fixed => serveResolved caps cfg req env (pathJoin (rootOf cfg) fixed)
  | none =>
    match decodeURIComponent req.pathname with
    | none => Except.ok (onNotFoundResp cfg req env)
    | some filename =>
      if hasTraversal filename then Except.ok (onNotFoundResp cfg req env)
      else if cfg.rewriteRequestPath.isSome then Except.error JsErr.referenceError
      else serveResolved caps cfg req env (pathJoin (rootOf cfg) filename)

/-! ## Concrete fixtures

A small deterministic filesystem and MIME table used to evaluate the
handler on concrete inputs. -/

/-- A regular 500-byte file. -/
def fileStats : Stats :=
  { isDirectory := false, size := 500, birthtimeUTC := "Thu, 01 Jan 1970 00:00:00 GMT" }

/-- The brotli-compressed sibling of the file. -/
def brStats : Stats :=
  { isDirectory := false, size := 120, birthtimeUTC := "Mon, 05 Jan 1970 00:00:00 GMT" }

/-- The gzip-compressed sibling of the file. -/
def gzStats : Stats :=
  { isDirectory := false, size := 150, birthtimeUTC := "Tue, 06 Jan 1970 00:00:00 GMT" }

/-- A directory entry. -/
def dirStats : Stats :=
  { isDirectory := true, size := 4096, birthtimeUTC := "Wed, 07 Jan 1970 00:00:00 GMT" }

/-- The fixture filesystem: a text file with both precompressed
siblings under `pub/`, and a directory `/d` whose `index.html` entry is
itself a directory. -/
def demoFs : String → Option Stats := fun p =>
  if p = "pub/file.txt" then some fileStats
  else if p = "pub/file.txt.br" then some brStats
  else if p = "pub/file.txt.gz" then some gzStats
  else if p = "/d" then some dirStats
  else if p = "/d/index.html" then some dirStats
  else none

/-- The fixture MIME table. -/
def demoMime : String → Option String := fun p =>
  if p = "pub/file.txt" then some "text/plain" else none

/-- The fixture capabilities. -/
def demoCaps : Caps := { fs := demoFs, mime := demoMime }

/-- An options object with every field defaulted. -/
def cfgPlain : Config Unit := {}

/-- Options with a rewrite function configured and no fixed path. -/
def cfgRewrite : Config Unit := { rewriteRequestPath := some (fun p => p) }

/-- Options pinning the served file via the fixed `path` option. -/
def cfgFixed : Config Unit := { root := some "pub", path := some "file.txt" }

/-- The fixed-path options with precompression enabled. -/
def cfgFixedPre : Config Unit :=
  { root := some "pub", path := some "file.txt", precompressed := true }

/-- The fixed-path options pointing at the directory fixture. -/
def cfgFixedDir : Config Unit := { path := some "/d" }

/-- A `GET` request with the given `Range` header. -/
def reqGetRange (r : String) : Request :=
  { method := "GET", pathname := "/x", rangeHeader := some r, acceptEncoding := none }

/-- A `GET` request without a `Range` header. -/
def reqGetPlain : Request :=
  { method := "GET", pathname := "/x", rangeHeader := none, acceptEncoding := none }

/-- A `HEAD` request that nevertheless carries a `Range` header. -/
def reqHead : Request :=
  { method := "HEAD", pathname := "/x", rangeHeader := some "bytes=0-10",
    acceptEncoding := none }

/-- A `GET` request advertising `Accept-Encoding: gzip, br` (gzip listed
first by the client). -/
def reqGetEnc : Request :=
  { method := "GET", pathname := "/x", rangeHeader := none,
    acceptEncoding := some "gzip, br" }

/-- The multi-range header `bytes=0-10,20-30`. -/
def rngMulti : String :=
  ⟨"bytes=".data ++ (['0'] ++ '-' :: (['1', '0'] ++ ',' :: ['2', '0', '-', '3', '0']))⟩

/-- The single-range header `bytes=0-10`. -/
def rngSingle : String := ⟨"bytes=".data ++ (['0'] ++ '-' :: ['1', '0'])⟩

/-- The open-ended header `bytes=600-`. -/
def rngPast : String := ⟨"bytes=".data ++ (['6', '0', '0'] ++ '-' :: [])⟩

/-! ## Header lemmas -/

theorem headerGet_set_self (hs : Headers) (k v : String) :
    headerGet (headerSet hs k v) k = some v := by
  induction hs with
  | nil => simp [headerSet, headerGet]
  | cons h t ih =>
    obtain ⟨k2, v2⟩ := h
    by_cases hk : k2 = k
    · simp [headerSet, hk, headerGet]
    · simp [headerSet, hk, headerGet, ih]

theorem headerGet_set_ne (hs : Headers) (k v q : String) (h : q ≠ k) :
    headerGet (headerSet hs k v) q = headerGet hs q := by
  have hk : ¬(k = q) := fun hh => h hh.symm
  induction hs with
  | nil => simp only [headerSet, headerGet, if_neg hk]
  | cons hd t ih =>
    obtain ⟨k2, v2⟩ := hd
    by_cases hkk : k2 = k
    · subst hkk
      simp only [headerSet, if_pos rfl, headerGet, if_neg hk]
    · simp only [headerSet, if_neg hkk, headerGet]
      rw [ih]

theorem headerGet_append_ne (hs : Headers) (k v q : String) (h : q ≠ k) :
    headerGet (headerAppend hs k v) q = headerGet hs q := by
  have hk : ¬(k = q) := fun hh => h hh.symm
  induction hs with
  | nil => simp only [headerAppend, headerGet, if_neg hk]
  | cons hd t ih =>
    obtain ⟨k2, v2⟩ := hd
    by_cases hkk : k2 = k
    · subst hkk
      simp only [headerAppend, if_pos rfl, headerGet, if_neg hk]
    · simp only [headerAppend, if_neg hkk, headerGet]
      rw [ih]

/-! ## Handler reduction lemmas -/

theorem handle_fixed {ε : Type} (caps : Caps) (cfg : Config ε) (req : Request)
    (env : ε) (fixed : String) (hp : cfg.path = some fixed) :
    handle caps cfg req env =
      serveResolved caps cfg req env (pathJoin (rootOf cfg) fixed) := by
  unfold handle
  rw [hp]

theorem serveResolved_file {ε : Type} (caps : Caps) (cfg : Config ε) (req : Request)
    (env : ε) (p : String) (st : Stats) (hfs : caps.fs p = some st)
    (hdir : st.isDirectory = false) :
    serveResolved caps cfg req env p = serveFile caps cfg req p st := by
  unfold serveResolved
  rw [hfs]
  simp [hdir]

theorem serveFile_plain {ε : Type} (caps : Caps) (cfg : Config ε) (req : Request)
    (p : String) (st : Stats) (hpre : cfg.precompressed = false) :
    serveFile caps cfg req p st =
      respond req p st [("Content-Type", (caps.mime p).getD "application/octet-stream")] := by
  unfold serveFile
  rw [hpre]
  simp

theorem serveFile_br {ε : Type} (caps : Caps) (cfg : Config ε) (req : Request)
    (p : String) (st stB : Stats) (hpre : cfg.precompressed = true)
    (hm : (match caps.mime p with
           | none => true
           | some mt => compressibleTest mt) = true)
    (hbr : (acceptSet req).contains "br" = true)
    (hfsb : caps.fs (p ++ ".br") = some stB) :
    serveFile caps cfg req p st =
      respond req (p ++ ".br") stB
        (headerAppend
          (headerSet [("Content-Type", (caps.mime p).getD "application/octet-stream")]
            "Content-Encoding" "br")
          "Vary" "Accept-Encoding") := by
  simp only [serveFile, hpre, Bool.true_and, hm, if_true, findEncoding, encodingsOrdered,
    hbr, hfsb]

theorem respond_head (req : Request) (p : String) (st : Stats) (hs : Headers)
    (h : req.method = "HEAD" ∨ req.method = "OPTIONS") :
    respond req p st hs = Except.ok (headResponse st hs) := by
  unfold respond
  rw [if_pos h]

theorem respond_full (req : Request) (p : String) (st : Stats) (hs : Headers)
    (h1 : ¬(req.method = "HEAD" ∨ req.method = "OPTIONS"))
    (h2 : req.rangeHeader = none) :
    respond req p st hs = Except.ok (fullResponse p st hs) := by
  unfold respond
  rw [if_neg h1, h2]
  simp

theorem respond_range (req : Request) (p : String) (st : Stats) (hs : Headers)
    (r : String) (h1 : ¬(req.method = "HEAD" ∨ req.method = "OPTIONS"))
    (h2 : req.rangeHeader = some r) (h3 : r ≠ "") :
    respond req p st hs = rangeResponse p st hs r := by
  unfold respond
  rw [if_neg h1, h2]
  simp [h3]

/-! ## Response-shape lemmas -/

theorem rangeResponse_ok (p : String) (st : Stats) (hs : Headers) (r : String)
    (h : ¬(parsedStart r < 0 ∨ clampedEnd r (st.size : Int) < 0 ∨
      clampedEnd r (st.size : Int) < parsedStart r)) :
    rangeResponse p st hs r = Except.ok (rangeOkResponse p st hs r) := by
  simp only [rangeResponse]
  rw [if_neg h]

theorem rangeResponse_err (p : String) (st : Stats) (hs : Headers) (r : String)
    (h : parsedStart r < 0 ∨ clampedEnd r (st.size : Int) < 0 ∨
      clampedEnd r (st.size : Int) < parsedStart r) :
    rangeResponse p st hs r = Except.error JsErr.rangeError := by
  simp only [rangeResponse]
  rw [if_pos h]

theorem rangeOk_status (p : String) (st : Stats) (hs : Headers) (r : String) :
    (rangeOkResponse p st hs r).status = 206 := rfl

theorem rangeOk_body (p : String) (st : Stats) (hs : Headers) (r : String) :
    (rangeOkResponse p st hs r).body =
      Body.fileStream p (some (parsedStart r, clampedEnd r (st.size : Int))) := rfl

theorem rangeOk_contentRange (p : String) (st : Stats) (hs : Headers) (r : String) :
    headerGet (rangeOkResponse p st hs r).headers "Content-Range" =
      some ("bytes " ++ toString (parsedStart r) ++ "-" ++
        toString (clampedEnd r (st.size : Int)) ++ "/" ++ toString ((st.size : Int))) := by
  simp only [rangeOkResponse]
  exact headerGet_set_self _ _ _

theorem rangeOk_contentLength (p : String) (st : Stats) (hs : Headers) (r : String) :
    headerGet (rangeOkResponse p st hs r).headers "Content-Length" =
      some (toString (clampedEnd r (st.size : Int) - parsedStart r + 1)) := by
  simp only [rangeOkResponse]
  rw [headerGet_set_ne _ _ _ _ (by decide)]
  exact headerGet_set_self _ _ _

theorem rangeOk_acceptRanges (p : String) (st : Stats) (hs : Headers) (r : String) :
    headerGet (rangeOkResponse p st hs r).headers "Accept-Ranges" = some "bytes" := by
  simp only [rangeOkResponse]
  rw [headerGet_set_ne _ _ _ _ (by decide), headerGet_set_ne _ _ _ _ (by decide),
    headerGet_set_ne _ _ _ _ (by decide)]
  exact headerGet_set_self _ _ _

theorem rangeOk_date (p : String) (st : Stats) (hs : Headers) (r : String) :
    headerGet (rangeOkResponse p st hs r).headers "Date" = some st.birthtimeUTC := by
  simp only [rangeOkResponse]
  rw [headerGet_set_ne _ _ _ _ (by decide), headerGet_set_ne _ _ _ _ (by decide)]
  exact headerGet_set_self _ _ _

theorem fullResponse_contentLength (p : String) (st : Stats) (hs : Headers) :
    headerGet (fullResponse p st hs).headers "Content-Length" =
      some (toString ((st.size : Int))) := by
  simp only [fullResponse]
  exact headerGet_set_self _ _ _

theorem headResponse_contentLength (st : Stats) (hs : Headers) :
    headerGet (headResponse st hs).headers "Content-Length" =
      some (toString ((st.size : Int))) := by
  simp only [headResponse]
  exact headerGet_set_self _ _ _

/-! ## Range-parsing lemmas -/

theorem digit_not_ws (c : Char) (h : isDigitCh c = true) : isJsWs c = false := by
  simp only [isDigitCh, Bool.and_eq_true, decide_eq_true_eq] at h
  simp only [isJsWs, Bool.or_eq_false_iff, Bool.and_eq_false_iff,
    decide_eq_false_iff_not]
  omega

theorem digit_ne_dash (c : Char) (h : isDigitCh c = true) : ¬(c = '-') := by
  intro hh
  subst hh
  exact absurd h (by decide)

theorem digit_ne_plus (c : Char) (h : isDigitCh c = true) : ¬(c = '+') := by
  intro hh
  subst hh
  exact absurd h (by decide)

theorem takeWhile_append_all (p : Char → Bool) (ds e : List Char)
    (h1 : ∀ c ∈ ds, p c = true)
    (h2 : e = [] ∨ ∃ c t, e = c :: t ∧ p c = false) :
    (ds ++ e).takeWhile p = ds := by
  induction ds with
  | nil =>
    rcases h2 with h2 | ⟨c, t, rfl, hc⟩
    · simp [h2]
    · simp [List.takeWhile_cons, hc]
  | cons d dt ih =>
    have hd : p d = true := h1 d (List.mem_cons_self _ _)
    have hdt : ∀ c ∈ dt, p c = true := fun c hc => h1 c (List.mem_cons_of_mem _ hc)
    simp only [List.cons_append, List.takeWhile_cons, hd, if_true]
    rw [ih hdt]

theorem isPrefixOf_append_self (l m : List Char) : l.isPrefixOf (l ++ m) = true := by
  simp [List.isPrefixOf_iff_prefix]

theorem replaceFirstSub_append_self (pat rest : List Char) :
    replaceFirstSub pat (pat ++ rest) = rest := by
  cases pat with
  | nil =>
    cases rest with
    | nil => rfl
    | cons c t => simp [replaceFirstSub, List.isPrefixOf]
  | cons p pt =>
    simp only [List.cons_append, replaceFirstSub]
    rw [if_pos]
    · simp only [List.length_cons, List.drop_succ_cons]
      exact List.drop_left pt rest
    · exact isPrefixOf_append_self (p :: pt) rest

theorem breakAtDash_append_no_dash : ∀ (l m : List Char), '-' ∉ l →
    breakAtDash (l ++ m) = (l ++ (breakAtDash m).1, (breakAtDash m).2)
  | [], m, _ => by simp
  | c :: t, m, h => by
    have hc : ¬(c = '-') := by
      intro hh
      exact h (by rw [← hh] at *; exact List.mem_cons_self c t)
    have ht : '-' ∉ t := fun hmm => h (List.mem_cons_of_mem c hmm)
    simp only [List.cons_append, breakAtDash, if_neg hc, List.append_eq]
    rw [breakAtDash_append_no_dash t m ht]

theorem breakAtDash_no_dash (l : List Char) (h : '-' ∉ l) :
    breakAtDash l = (l, none) := by
  have := breakAtDash_append_no_dash l [] h
  simpa [breakAtDash] using this

theorem breakAtDash_dash_cons (r : List Char) : breakAtDash ('-' :: r) = ([], some r) := by
  simp [breakAtDash]

theorem rangeParts_eq (s t : List Char) (hs : '-' ∉ s) :
    rangeParts ("bytes=".data ++ (s ++ '-' :: t)) = (s, some (breakAtDash t).1) := by
  unfold rangeParts
  rw [replaceFirstSub_append_self]
  unfold splitDashTwo
  rw [breakAtDash_append_no_dash s ('-' :: t) hs, breakAtDash_dash_cons]
  simp

theorem jsParseInt_digits (ds e : List Char) (hne : ds ≠ [])
    (hd : ∀ c ∈ ds, isDigitCh c = true)
    (he : e = [] ∨ ∃ c t, e = c :: t ∧ isDigitCh c = false) :
    jsParseInt (ds ++ e) = some ((digitsVal ds : Int)) := by
  obtain ⟨d, dt, rfl⟩ := List.exists_cons_of_ne_nil hne
  have hdd : isDigitCh d = true := hd d (List.mem_cons_self _ _)
  have hws : isJsWs d = false := digit_not_ws d hdd
  unfold jsParseInt
  rw [List.cons_append, List.dropWhile_cons]
  simp only [hws, Bool.false_eq_true, if_false]
  rw [if_neg (digit_ne_dash d hdd), if_neg (digit_ne_plus d hdd)]
  unfold natPrefixVal
  rw [← List.cons_append, takeWhile_append_all isDigitCh (d :: dt) e hd he]
  simp

theorem jsOr_some (n : Int) : jsOr (some n) 0 = n := by
  unfold jsOr
  by_cases h : n = 0
  · simp [h]
  · simp [h]

theorem digits_no_dash (s : List Char) (hd : ∀ c ∈ s, isDigitCh c = true) : '-' ∉ s := by
  intro hmem
  exact digit_ne_dash '-' (hd '-' hmem) rfl

theorem breakAtDash_fst_no_dash (l : List Char) : '-' ∉ (breakAtDash l).1 := by
  induction l with
  | nil => simp [breakAtDash]
  | cons c rest ih =>
    by_cases hc : c = '-'
    · simp [breakAtDash, hc]
    · simp only [breakAtDash, if_neg hc]
      intro hmem
      rcases List.mem_cons.mp hmem with hm | hm
      · exact hc hm.symm
      · exact ih hm

theorem splitDashTwo_fst (l : List Char) : (splitDashTwo l).1 = (breakAtDash l).1 := by
  unfold splitDashTwo
  rcases hb : breakAtDash l with ⟨p0, o⟩
  cases o <;> simp

theorem jsParseInt_cons_eq (l : List Char) (c : Char) (r : List Char)
    (hdw : l.dropWhile isJsWs = c :: r) :
    jsParseInt l =
      (if c = '-' then (natPrefixVal r).map (fun n => -(Int.ofNat n))
       else if c = '+' then (natPrefixVal r).map (fun n => Int.ofNat n)
       else (natPrefixVal (c :: r)).map (fun n => Int.ofNat n)) := by
  unfold jsParseInt
  rw [hdw]

theorem jsParseInt_nonneg_of_no_dash (l : List Char) (h : '-' ∉ l) (n : Int)
    (hj : jsParseInt l = some n) : 0 ≤ n := by
  rcases hdw : l.dropWhile isJsWs with _ | ⟨c, r2⟩
  · unfold jsParseInt at hj
    rw [hdw] at hj
    exact absurd hj (by simp)
  · rw [jsParseInt_cons_eq l c r2 hdw] at hj
    have hcl : c ∈ l := by
      have hsub : (l.dropWhile isJsWs).Sublist l := List.dropWhile_sublist _
      exact hsub.subset (hdw ▸ List.mem_cons_self c r2)
    have hc : ¬(c = '-') := fun hh => h (hh ▸ hcl)
    rw [if_neg hc] at hj
    by_cases hcp : c = '+'
    · rw [if_pos hcp] at hj
      obtain ⟨m, _, hm2⟩ := Option.map_eq_some'.mp hj
      have hmn : Int.ofNat m = n := hm2
      exact hmn ▸ Int.ofNat_nonneg m
    · rw [if_neg hcp] at hj
      obtain ⟨m, _, hm2⟩ := Option.map_eq_some'.mp hj
      have hmn : Int.ofNat m = n := hm2
      exact hmn ▸ Int.ofNat_nonneg m

/-- The start of a parsed range is never negative: the first part of a
`split("-")` cannot contain a minus sign, and `|| 0` replaces `NaN`. -/
theorem parsedStart_nonneg (r : String) : 0 ≤ parsedStart r := by
  unfold parsedStart
  have hnd : '-' ∉ (rangeParts r.data).1 := by
    unfold rangeParts
    rw [splitDashTwo_fst]
    exact breakAtDash_fst_no_dash _
  rcases hj : jsParseInt (rangeParts r.data).1 with _ | n
  · simp [jsOr]
  · have hn : 0 ≤ n := jsParseInt_nonneg_of_no_dash _ hnd n hj
    unfold jsOr
    by_cases hz : n = 0
    · simp [hz]
    · simp [hz, hn]

/-- `parsedStart` on a header `bytes=<s>-<t>` whose start field `s` is a
nonempty decimal-digit string is the value of `s` (for `s = 0` the falsy
default coincides with the parsed value). -/
theorem parsedStart_digits (s t : List Char) (hne : s ≠ [])
    (hd : ∀ c ∈ s, isDigitCh c = true) :
    parsedStart ⟨"bytes=".data ++ (s ++ '-' :: t)⟩ = (digitsVal s : Int) := by
  unfold parsedStart
  have hdata : (String.mk ("bytes=".data ++ (s ++ '-' :: t))).data =
      "bytes=".data ++ (s ++ '-' :: t) := rfl
  rw [hdata, rangeParts_eq s t (digits_no_dash s hd)]
  have := jsParseInt_digits s [] hne hd (Or.inl rfl)
  rw [List.append_nil] at this
  rw [this, jsOr_some]

/-- `parsedEnd` on a header `bytes=<s>-<t>`: the end field is the part
of `t` before its first dash, fed to `parseInt` and the falsy-default. -/
theorem parsedEnd_parts (s t : List Char) (size : Int)
    (hd : ∀ c ∈ s, isDigitCh c = true) :
    parsedEnd ⟨"bytes=".data ++ (s ++ '-' :: t)⟩ size =
      jsOr (jsParseInt (breakAtDash t).1) (size - 1) := by
  unfold parsedEnd
  have hdata : (String.mk ("bytes=".data ++ (s ++ '-' :: t))).data =
      "bytes=".data ++ (s ++ '-' :: t) := rfl
  rw [hdata, rangeParts_eq s t (digits_no_dash s hd)]

/-! ## Further helper lemmas -/

theorem mk_bytes_ne_empty (x : List Char) : (⟨"bytes=".data ++ x⟩ : String) ≠ "" := by
  intro hh
  have h2 : "bytes=".data ++ x = ([] : List Char) := congrArg String.data hh
  simp at h2

theorem headerGet_append_of_none (hs : Headers) (k v : String)
    (h : headerGet hs k = none) : headerGet (headerAppend hs k v) k = some v := by
  induction hs with
  | nil => simp [headerAppend, headerGet]
  | cons hd t ih =>
    obtain ⟨k2, v2⟩ := hd
    by_cases hk : k2 = k
    · subst hk
      exact absurd h (by simp [headerGet])
    · simp only [headerGet, if_neg hk] at h
      simp only [headerAppend, if_neg hk, headerGet, if_neg hk]
      exact ih h

theorem headerGet_ct_only (v q : String) (h : ¬("Content-Type" = q)) :
    headerGet [("Content-Type", v)] q = none := by
  simp [headerGet, h]

theorem rangeResponse_ext (p : String) (st : Stats) (hs : Headers) (r1 r2 : String)
    (h1 : parsedStart r1 = parsedStart r2)
    (h2 : parsedEnd r1 (st.size : Int) = parsedEnd r2 (st.size : Int)) :
    rangeResponse p st hs r1 = rangeResponse p st hs r2 := by
  simp only [rangeResponse, rangeOkResponse, clampedEnd]
  rw [h1, h2]

/-! ## The claims -/

/-- **C1.** With path-from-URL resolution in effect (no fixed `path`
option — the spec's step 2 applies "otherwise"), every request whose
URL-decoded path contains a `..` segment bounded by separators or the
string start/end, and every request whose path fails URL-decoding, is
answered by the not-found collaborator's response; in particular no
file content (from outside the root or anywhere else) is produced for
such a request. -/
theorem c1_traversal_rejected {ε : Type} (caps : Caps) (cfg : Config ε) (req : Request)
    (env : ε) (hpath : cfg.path = none)
    (h : decodeURIComponent req.pathname = none ∨
      ∃ f, decodeURIComponent req.pathname = some f ∧ hasTraversal f = true) :
    handle caps cfg req env = Except.ok (onNotFoundResp cfg req env) := by
  unfold handle
  rw [hpath]
  rcases h with h | ⟨f, hf, ht⟩
  · rw [h]
  · rw [hf]
    simp [ht]

/-- Witness for C1: a URL-encoded traversal path `/%2e%2e/secret`
decodes to `/../secret`, is caught, and yields the not-found
response. -/
theorem c1_traversal_rejected_witness :
    (cfgPlain.path = none ∧
      decodeURIComponent "/%2e%2e/secret" = some "/../secret" ∧
      hasTraversal "/../secret" = true) ∧
    handle demoCaps cfgPlain
        { method := "GET", pathname := "/%2e%2e/secret", rangeHeader := none,
          acceptEncoding := none } () =
      Except.ok (onNotFoundResp cfgPlain
        { method := "GET", pathname := "/%2e%2e/secret", rangeHeader := none,
          acceptEncoding := none } ()) :=
  ⟨⟨by decide, by decide, by decide⟩,
    c1_traversal_rejected demoCaps cfgPlain
      { method := "GET", pathname := "/%2e%2e/secret", rangeHeader := none,
        acceptEncoding := none } () (by decide)
      (Or.inr ⟨"/../secret", by decide, by decide⟩)⟩

/-- **C2 (code bug).** The claim says the handler never throws; but with
a `rewriteRequestPath` function configured and no fixed `path`, line 98
of serveStatic.ts passes the undefined identifier `c` to the rewrite
function, raising a `ReferenceError` that escapes to the caller.  This
theorem evaluates the model at such a failing input. -/
theorem c2_rewrite_reference_error :
    handle demoCaps cfgRewrite
        { method := "GET", pathname := "/index.html", rangeHeader := none,
          acceptEncoding := none } () =
      Except.error JsErr.referenceError := by
  rfl

/-- **C3 counterexample.** The claim says that when the index path is
itself a directory the handler returns not-found; in fact the handler
proceeds to serve the index path: for the fixture where `/d` and
`/d/index.html` are both directories, the response is a 200 file-stream
response, not the not-found response. -/
theorem c3_index_directory_cex :
    handle demoCaps cfgPlain
        { method := "GET", pathname := "/d", rangeHeader := none,
          acceptEncoding := none } () =
      Except.ok
        { status := 200,
          headers := [("Content-Type", "application/octet-stream"),
            ("Content-Length", "4096")],
          body := Body.fileStream "/d/index.html" none } ∧
    onNotFoundResp cfgPlain
        { method := "GET", pathname := "/d", rangeHeader := none,
          acceptEncoding := none } () ≠
      { status := 200,
        headers := [("Content-Type", "application/octet-stream"),
          ("Content-Length", "4096")],
        body := Body.fileStream "/d/index.html" none } := by
  exact ⟨by rfl, by decide⟩

/-- **C3 (amended).** For every request that resolves to a directory,
the handler appends the configured index filename and re-stats exactly
once; if that stat fails the not-found collaborator is invoked, and if
the index path is itself a directory the handler does not recurse — it
proceeds to serve the index path as the target instead of returning
not-found. -/
theorem c3_directory_index_once {ε : Type} (caps : Caps) (cfg : Config ε) (req : Request)
    (env : ε) (fixed : String) (st : Stats)
    (hp : cfg.path = some fixed)
    (hfs : caps.fs (pathJoin (rootOf cfg) fixed) = some st)
    (hdir : st.isDirectory = true) :
    handle caps cfg req env =
      (match caps.fs (pathJoin (pathJoin (rootOf cfg) fixed) (cfg.index.getD "index.html")) with
       | none => Except.ok (onNotFoundResp cfg req env)
       | some st1 =>
          serveFile caps cfg req
            (pathJoin (pathJoin (rootOf cfg) fixed) (cfg.index.getD "index.html")) st1) := by
  rw [handle_fixed caps cfg req env fixed hp]
  unfold serveResolved
  rw [hfs]
  simp [hdir]

/-- Witness for C3 (amended): the directory fixture `/d`, whose index
path `/d/index.html` is itself a directory, is served (no recursion, no
not-found). -/
theorem c3_directory_index_once_witness :
    (cfgFixedDir.path = some "/d" ∧
      demoCaps.fs (pathJoin (rootOf cfgFixedDir) "/d") = some dirStats ∧
      dirStats.isDirectory = true) ∧
    handle demoCaps cfgFixedDir
        { method := "GET", pathname := "/x", rangeHeader := none,
          acceptEncoding := none } () =
      (match demoCaps.fs (pathJoin (pathJoin (rootOf cfgFixedDir) "/d")
          (cfgFixedDir.index.getD "index.html")) with
       | none =>
          Except.ok (onNotFoundResp cfgFixedDir
            { method := "GET", pathname := "/x", rangeHeader := none,
              acceptEncoding := none } ())
       | some st1 =>
          serveFile demoCaps cfgFixedDir
            { method := "GET", pathname := "/x", rangeHeader := none,
              acceptEncoding := none }
            (pathJoin (pathJoin (rootOf cfgFixedDir) "/d")
              (cfgFixedDir.index.getD "index.html")) st1) :=
  ⟨⟨by decide, by decide, by decide⟩,
    c3_directory_index_once demoCaps cfgFixedDir
      { method := "GET", pathname := "/x", rangeHeader := none, acceptEncoding := none }
      () "/d" dirStats (by decide) (by decide) (by decide)⟩

/-- **C4 counterexample.** The claim says a parsable end value of `0`
yields `end = 0`; in fact `parseInt("0", 10) || size - 1` takes the
falsy branch, so `bytes=0-0` against size 500 parses the end as 499,
not 0. -/
theorem c4_end_zero_cex :
    parsedEnd "bytes=0-0" 500 = 499 ∧ parsedEnd "bytes=0-0" 500 ≠ 0 := by
  exact ⟨by decide, by decide⟩

/-- **C4 (amended).** For a Range header `bytes=<s>-<e>` with decimal
start and end fields, the parsed start equals the given integer
(a start of 0 coincides with the falsy default 0), and the parsed end
equals the given integer unless the end field is absent, unparsable, or
parses to 0 — in those cases it is `size - 1` (the `||` default
conflates a parsed 0 with NaN). -/
theorem c4_parse_defaults (s e : List Char) (size : Int)
    (hsne : s ≠ []) (hsd : ∀ c ∈ s, isDigitCh c = true)
    (hene : e ≠ []) (hed : ∀ c ∈ e, isDigitCh c = true) :
    parsedStart ⟨"bytes=".data ++ (s ++ '-' :: e)⟩ = (digitsVal s : Int) ∧
    parsedEnd ⟨"bytes=".data ++ (s ++ '-' :: e)⟩ size =
      (if (digitsVal e : Int) = 0 then size - 1 else (digitsVal e : Int)) ∧
    parsedEnd ⟨"bytes=".data ++ (s ++ '-' :: [])⟩ size = size - 1 := by
  refine ⟨parsedStart_digits s e hsne hsd, ?_, ?_⟩
  · rw [parsedEnd_parts s e size hsd, breakAtDash_no_dash e (digits_no_dash e hed)]
    show jsOr (jsParseInt e) (size - 1) = _
    have hj : jsParseInt e = some ((digitsVal e : Int)) := by
      have h2 := jsParseInt_digits e [] hene hed (Or.inl rfl)
      rwa [List.append_nil] at h2
    rw [hj]
    rfl
  · rw [parsedEnd_parts s [] size hsd]
    rfl

/-- Witness for C4 (amended): `bytes=400-999` parses start 400 and end
999; `bytes=400-` defaults the end to 499 for size 500. -/
theorem c4_parse_defaults_witness :
    ((['4', '0', '0'] : List Char) ≠ [] ∧
      (∀ c ∈ (['4', '0', '0'] : List Char), isDigitCh c = true) ∧
      (['9', '9', '9'] : List Char) ≠ [] ∧
      (∀ c ∈ (['9', '9', '9'] : List Char), isDigitCh c = true)) ∧
    (parsedStart ⟨"bytes=".data ++ (['4', '0', '0'] ++ '-' :: ['9', '9', '9'])⟩ =
        (digitsVal ['4', '0', '0'] : Int) ∧
      parsedEnd ⟨"bytes=".data ++ (['4', '0', '0'] ++ '-' :: ['9', '9', '9'])⟩ 500 =
        (if (digitsVal ['9', '9', '9'] : Int) = 0 then 500 - 1
         else (digitsVal ['9', '9', '9'] : Int)) ∧
      parsedEnd ⟨"bytes=".data ++ (['4', '0', '0'] ++ '-' :: [])⟩ 500 = 500 - 1) :=
  ⟨⟨by decide, by decide, by decide, by decide⟩,
    c4_parse_defaults ['4', '0', '0'] ['9', '9', '9'] 500
      (by decide) (by decide) (by decide) (by decide)⟩

/-- Reduction of the whole handler for a fixed-path configuration that
resolves to a regular file with precompression disabled. -/
theorem handle_fixed_file {ε : Type} (caps : Caps) (cfg : Config ε) (req : Request)
    (env : ε) (fixed : String) (st : Stats)
    (hp : cfg.path = some fixed)
    (hfs : caps.fs (pathJoin (rootOf cfg) fixed) = some st)
    (hdir : st.isDirectory = false)
    (hpre : cfg.precompressed = false) :
    handle caps cfg req env =
      respond req (pathJoin (rootOf cfg) fixed) st
        [("Content-Type",
          (caps.mime (pathJoin (rootOf cfg) fixed)).getD "application/octet-stream")] := by
  rw [handle_fixed caps cfg req env fixed hp,
    serveResolved_file caps cfg req env _ st hfs hdir,
    serveFile_plain caps cfg req _ st hpre]

/-- **C5 counterexample.** The claim promises a 206 response for every
`Range` header with `size < end - start + 1`, but `bytes=600-1200`
against the 500-byte fixture file is in that regime (500 < 601) and the
handler throws: the clamp sets `end := 499 < start = 600`, and
`createReadStream`'s option validation raises `ERR_OUT_OF_RANGE`
uncaught, so no response is produced at all. -/
theorem c5_overlong_start_cex :
    (fileStats.size : Int) <
      parsedEnd "bytes=600-1200" (fileStats.size : Int) -
        parsedStart "bytes=600-1200" + 1 ∧
    handle demoCaps cfgFixed (reqGetRange "bytes=600-1200") () =
      Except.error JsErr.rangeError := by
  exact ⟨by decide, by rfl⟩

/-- **C5 (amended).** For a non-HEAD, non-OPTIONS request with a
`Range` header against a file of size `size` with
`size < end - start + 1` and additionally `start < size`, the end is
clamped to `size - 1` and the response is a 206 with
`Content-Range: bytes <start>-<size-1>/<size>`, `Content-Length`
`size - start`, `Accept-Ranges: bytes`, and `Date` set to the served
file's creation time; when `start ≥ size` the clamped end falls below
the start and the handler instead throws `ERR_OUT_OF_RANGE` from
`createReadStream` (line 171). -/
theorem c5_range_clamped {ε : Type} (caps : Caps) (cfg : Config ε) (req : Request)
    (env : ε) (fixed : String) (st : Stats) (r : String)
    (hp : cfg.path = some fixed)
    (hfs : caps.fs (pathJoin (rootOf cfg) fixed) = some st)
    (hdir : st.isDirectory = false)
    (hpre : cfg.precompressed = false)
    (hm1 : ¬(req.method = "HEAD" ∨ req.method = "OPTIONS"))
    (hr : req.rangeHeader = some r) (hrne : r ≠ "")
    (hclamp : (st.size : Int) < parsedEnd r (st.size : Int) - parsedStart r + 1)
    (hstart : parsedStart r < (st.size : Int)) :
    ∃ resp, handle caps cfg req env = Except.ok resp ∧
      resp.status = 206 ∧
      headerGet resp.headers "Content-Range" =
        some ("bytes " ++ toString (parsedStart r) ++ "-" ++
          toString ((st.size : Int) - 1) ++ "/" ++ toString ((st.size : Int))) ∧
      headerGet resp.headers "Content-Length" =
        some (toString ((st.size : Int) - parsedStart r)) ∧
      headerGet resp.headers "Accept-Ranges" = some "bytes" ∧
      headerGet resp.headers "Date" = some st.birthtimeUTC := by
  have hcl : clampedEnd r (st.size : Int) = (st.size : Int) - 1 := by
    simp only [clampedEnd]
    rw [if_pos hclamp]
  have hnn : 0 ≤ parsedStart r := parsedStart_nonneg r
  have hvalid : ¬(parsedStart r < 0 ∨ clampedEnd r (st.size : Int) < 0 ∨
      clampedEnd r (st.size : Int) < parsedStart r) := by
    rw [hcl]
    omega
  have e1 : handle caps cfg req env =
      Except.ok (rangeOkResponse (pathJoin (rootOf cfg) fixed) st
        [("Content-Type",
          (caps.mime (pathJoin (rootOf cfg) fixed)).getD "application/octet-stream")] r) := by
    rw [handle_fixed_file caps cfg req env fixed st hp hfs hdir hpre,
      respond_range req _ st _ r hm1 hr hrne,
      rangeResponse_ok _ _ _ _ hvalid]
  refine ⟨_, e1, rangeOk_status _ _ _ _, ?_, ?_,
    rangeOk_acceptRanges _ _ _ _, rangeOk_date _ _ _ _⟩
  · rw [rangeOk_contentRange, hcl]
  · rw [rangeOk_contentLength, hcl]
    have harith : (st.size : Int) - 1 - parsedStart r + 1 = (st.size : Int) - parsedStart r := by
      ring
    rw [harith]

/-- Witness for C5 (amended): `bytes=400-999` against the 500-byte
fixture file yields `Content-Range: bytes 400-499/500` and
`Content-Length: 100`. -/
theorem c5_range_clamped_witness :
    (cfgFixed.path = some "file.txt" ∧
      demoCaps.fs (pathJoin (rootOf cfgFixed) "file.txt") = some fileStats ∧
      fileStats.isDirectory = false ∧
      cfgFixed.precompressed = false ∧
      ¬((reqGetRange "bytes=400-999").method = "HEAD" ∨
        (reqGetRange "bytes=400-999").method = "OPTIONS") ∧
      (reqGetRange "bytes=400-999").rangeHeader = some "bytes=400-999" ∧
      ("bytes=400-999" : String) ≠ "" ∧
      (fileStats.size : Int) <
        parsedEnd "bytes=400-999" (fileStats.size : Int) - parsedStart "bytes=400-999" + 1 ∧
      parsedStart "bytes=400-999" < (fileStats.size : Int)) ∧
    (∃ resp, handle demoCaps cfgFixed (reqGetRange "bytes=400-999") () = Except.ok resp ∧
      resp.status = 206 ∧
      headerGet resp.headers "Content-Range" =
        some ("bytes " ++ toString (parsedStart "bytes=400-999") ++ "-" ++
          toString ((fileStats.size : Int) - 1) ++ "/" ++ toString ((fileStats.size : Int))) ∧
      headerGet resp.headers "Content-Length" =
        some (toString ((fileStats.size : Int) - parsedStart "bytes=400-999")) ∧
      headerGet resp.headers "Accept-Ranges" = some "bytes" ∧
      headerGet resp.headers "Date" = some fileStats.birthtimeUTC) :=
  ⟨⟨by decide, by decide, by decide, by decide, by decide, by decide, by decide,
      by decide, by decide⟩,
    c5_range_clamped demoCaps cfgFixed (reqGetRange "bytes=400-999") () "file.txt"
      fileStats "bytes=400-999" (by decide) (by decide) (by decide) (by decide)
      (by decide) (by decide) (by decide) (by decide) (by decide)⟩

/-- **C6.** With precompression enabled and the content type absent or
compressible, when `br` is accepted and the `.br` sibling exists, the
handler serves the `.br` file with `Content-Encoding: br` and
`Vary: Accept-Encoding` — the fixed table order (`br`, `zstd`, `gzip`)
decides, independently of the order of tokens in the client's header
and of whether other variants are also accepted and present. -/
theorem c6_precompressed_br {ε : Type} (caps : Caps) (cfg : Config ε) (req : Request)
    (env : ε) (fixed : String) (st stB : Stats)
    (hp : cfg.path = some fixed)
    (hfs : caps.fs (pathJoin (rootOf cfg) fixed) = some st)
    (hdir : st.isDirectory = false)
    (hpre : cfg.precompressed = true)
    (hm : (match caps.mime (pathJoin (rootOf cfg) fixed) with
           | none => true
           | some mt => compressibleTest mt) = true)
    (hbr : (acceptSet req).contains "br" = true)
    (hfsb : caps.fs (pathJoin (rootOf cfg) fixed ++ ".br") = some stB)
    (hmeth : ¬(req.method = "HEAD" ∨ req.method = "OPTIONS"))
    (hr : req.rangeHeader = none) :
    ∃ resp, handle caps cfg req env = Except.ok resp ∧
      resp.status = 200 ∧
      headerGet resp.headers "Content-Encoding" = some "br" ∧
      headerGet resp.headers "Vary" = some "Accept-Encoding" ∧
      headerGet resp.headers "Content-Length" = some (toString ((stB.size : Int))) ∧
      resp.body = Body.fileStream (pathJoin (rootOf cfg) fixed ++ ".br") none := by
  have e1 : handle caps cfg req env =
      respond req (pathJoin (rootOf cfg) fixed ++ ".br") stB
        (headerAppend
          (headerSet
            [("Content-Type",
              (caps.mime (pathJoin (rootOf cfg) fixed)).getD "application/octet-stream")]
            "Content-Encoding" "br")
          "Vary" "Accept-Encoding") := by
    rw [handle_fixed caps cfg req env fixed hp,
      serveResolved_file caps cfg req env _ st hfs hdir,
      serveFile_br caps cfg req _ st stB hpre hm hbr hfsb]
  rw [e1, respond_full req _ stB _ hmeth hr]
  refine ⟨_, rfl, rfl, ?_, ?_, fullResponse_contentLength _ _ _, rfl⟩
  · simp only [fullResponse]
    rw [headerGet_set_ne _ _ _ _ (by decide), headerGet_append_ne _ _ _ _ (by decide)]
    exact headerGet_set_self _ _ _
  · simp only [fullResponse]
    rw [headerGet_set_ne _ _ _ _ (by decide)]
    refine headerGet_append_of_none _ _ _ ?_
    rw [headerGet_set_ne _ _ _ _ (by decide)]
    exact headerGet_ct_only _ _ (by decide)

/-- Witness for C6: `Accept-Encoding: gzip, br` with both `file.txt.gz`
and `file.txt.br` on disk selects `br` (table order, not header
order). -/
theorem c6_precompressed_br_witness :
    (cfgFixedPre.path = some "file.txt" ∧
      demoCaps.fs (pathJoin (rootOf cfgFixedPre) "file.txt") = some fileStats ∧
      fileStats.isDirectory = false ∧
      cfgFixedPre.precompressed = true ∧
      (match demoCaps.mime (pathJoin (rootOf cfgFixedPre) "file.txt") with
       | none => true
       | some mt => compressibleTest mt) = true ∧
      (acceptSet reqGetEnc).contains "br" = true ∧
      demoCaps.fs (pathJoin (rootOf cfgFixedPre) "file.txt" ++ ".br") = some brStats ∧
      demoCaps.fs (pathJoin (rootOf cfgFixedPre) "file.txt" ++ ".gz") = some gzStats ∧
      (acceptSet reqGetEnc).contains "gzip" = true ∧
      ¬(reqGetEnc.method = "HEAD" ∨ reqGetEnc.method = "OPTIONS") ∧
      reqGetEnc.rangeHeader = none) ∧
    (∃ resp, handle demoCaps cfgFixedPre reqGetEnc () = Except.ok resp ∧
      resp.status = 200 ∧
      headerGet resp.headers "Content-Encoding" = some "br" ∧
      headerGet resp.headers "Vary" = some "Accept-Encoding" ∧
      headerGet resp.headers "Content-Length" = some (toString ((brStats.size : Int))) ∧
      resp.body = Body.fileStream (pathJoin (rootOf cfgFixedPre) "file.txt" ++ ".br") none) :=
  ⟨⟨by decide, by decide, by decide, by decide, by decide, by decide, by decide,
      by decide, by decide, by decide, by decide⟩,
    c6_precompressed_br demoCaps cfgFixedPre reqGetEnc () "file.txt" fileStats brStats
      (by decide) (by decide) (by decide) (by decide) (by decide) (by decide)
      (by decide) (by decide) (by decide)⟩

/-- **C7.** A request with no `Range` header that resolves to an
existing file gets status 200, `Content-Length` equal to the file's
exact byte size, and a body streaming the whole file (no byte-range
restriction). -/
theorem c7_full_content {ε : Type} (caps : Caps) (cfg : Config ε) (req : Request)
    (env : ε) (fixed : String) (st : Stats)
    (hp : cfg.path = some fixed)
    (hfs : caps.fs (pathJoin (rootOf cfg) fixed) = some st)
    (hdir : st.isDirectory = false)
    (hpre : cfg.precompressed = false)
    (hm1 : ¬(req.method = "HEAD" ∨ req.method = "OPTIONS"))
    (hr : req.rangeHeader = none) :
    ∃ resp, handle caps cfg req env = Except.ok resp ∧
      resp.status = 200 ∧
      headerGet resp.headers "Content-Length" = some (toString ((st.size : Int))) ∧
      resp.body = Body.fileStream (pathJoin (rootOf cfg) fixed) none := by
  rw [handle_fixed_file caps cfg req env fixed st hp hfs hdir hpre,
    respond_full req _ st _ hm1 hr]
  exact ⟨_, rfl, rfl, fullResponse_contentLength _ _ _, rfl⟩

/-- Witness for C7: a plain `GET` of the 500-byte fixture file. -/
theorem c7_full_content_witness :
    (cfgFixed.path = some "file.txt" ∧
      demoCaps.fs (pathJoin (rootOf cfgFixed) "file.txt") = some fileStats ∧
      fileStats.isDirectory = false ∧
      cfgFixed.precompressed = false ∧
      ¬(reqGetPlain.method = "HEAD" ∨ reqGetPlain.method = "OPTIONS") ∧
      reqGetPlain.rangeHeader = none) ∧
    (∃ resp, handle demoCaps cfgFixed reqGetPlain () = Except.ok resp ∧
      resp.status = 200 ∧
      headerGet resp.headers "Content-Length" = some (toString ((fileStats.size : Int))) ∧
      resp.body = Body.fileStream (pathJoin (rootOf cfgFixed) "file.txt") none) :=
  ⟨⟨by decide, by decide, by decide, by decide, by decide, by decide⟩,
    c7_full_content demoCaps cfgFixed reqGetPlain () "file.txt" fileStats
      (by decide) (by decide) (by decide) (by decide) (by decide) (by decide)⟩

/-- **C8.** A `HEAD` or `OPTIONS` request that resolves to an existing
file gets status 200, an empty body, and `Content-Length` equal to the
full target size, regardless of any `Range` header; no range headers
are produced. -/
theorem c8_head_options {ε : Type} (caps : Caps) (cfg : Config ε) (req : Request)
    (env : ε) (fixed : String) (st : Stats)
    (hp : cfg.path = some fixed)
    (hfs : caps.fs (pathJoin (rootOf cfg) fixed) = some st)
    (hdir : st.isDirectory = false)
    (hpre : cfg.precompressed = false)
    (hm : req.method = "HEAD" ∨ req.method = "OPTIONS") :
    ∃ resp, handle caps cfg req env = Except.ok resp ∧
      resp.status = 200 ∧
      resp.body = Body.empty ∧
      headerGet resp.headers "Content-Length" = some (toString ((st.size : Int))) ∧
      headerGet resp.headers "Content-Range" = none ∧
      headerGet resp.headers "Accept-Ranges" = none := by
  rw [handle_fixed_file caps cfg req env fixed st hp hfs hdir hpre,
    respond_head req _ st _ hm]
  refine ⟨_, rfl, rfl, rfl, headResponse_contentLength _ _, ?_, ?_⟩
  · simp only [headResponse]
    rw [headerGet_set_ne _ _ _ _ (by decide)]
    exact headerGet_ct_only _ _ (by decide)
  · simp only [headResponse]
    rw [headerGet_set_ne _ _ _ _ (by decide)]
    exact headerGet_ct_only _ _ (by decide)

/-- Witness for C8: a `HEAD` request carrying `Range: bytes=0-10` still
gets the full size and no range handling. -/
theorem c8_head_options_witness :
    (cfgFixed.path = some "file.txt" ∧
      demoCaps.fs (pathJoin (rootOf cfgFixed) "file.txt") = some fileStats ∧
      fileStats.isDirectory = false ∧
      cfgFixed.precompressed = false ∧
      (reqHead.method = "HEAD" ∨ reqHead.method = "OPTIONS") ∧
      reqHead.rangeHeader = some "bytes=0-10") ∧
    (∃ resp, handle demoCaps cfgFixed reqHead () = Except.ok resp ∧
      resp.status = 200 ∧
      resp.body = Body.empty ∧
      headerGet resp.headers "Content-Length" = some (toString ((fileStats.size : Int))) ∧
      headerGet resp.headers "Content-Range" = none ∧
      headerGet resp.headers "Accept-Ranges" = none) :=
  ⟨⟨by decide, by decide, by decide, by decide, by decide, by decide⟩,
    c8_head_options demoCaps cfgFixed reqHead () "file.txt" fileStats
      (by decide) (by decide) (by decide) (by decide) (by decide)⟩

/-- **C9 counterexample.** The claim promises a single 206 response for
every comma-separated multi-range header, but when the first range is
unsatisfiable the handler throws instead: for `bytes=600-10,20-30`
against the 500-byte fixture file the parsed first range is start 600,
end 10, and `createReadStream`'s option validation raises
`ERR_OUT_OF_RANGE` uncaught, so no response is produced. -/
theorem c9_unsatisfiable_first_cex :
    handle demoCaps cfgFixed (reqGetRange "bytes=600-10,20-30") () =
      Except.error JsErr.rangeError := by
  rfl

/-- **C9 (amended).** For a `Range` header `bytes=<s1>-<s2>,<rest>`
with comma-separated multiple ranges, only the first range segment is
honored: the handler's outcome is identical to the outcome for
`bytes=<s1>-<s2>` alone (no multipart handling), and whenever that
first range yields a valid stream window (clamped end nonnegative and
not below the start) the response is a single 206 partial response;
an unsatisfiable first window instead makes `createReadStream` throw
`ERR_OUT_OF_RANGE`, identically for both headers. -/
theorem c9_multirange_first {ε : Type} (caps : Caps) (cfg : Config ε) (req : Request)
    (env : ε) (fixed : String) (st : Stats) (s1 s2 w : List Char)
    (hp : cfg.path = some fixed)
    (hfs : caps.fs (pathJoin (rootOf cfg) fixed) = some st)
    (hdir : st.isDirectory = false)
    (hpre : cfg.precompressed = false)
    (hm1 : ¬(req.method = "HEAD" ∨ req.method = "OPTIONS"))
    (hr : req.rangeHeader = some ⟨"bytes=".data ++ (s1 ++ '-' :: (s2 ++ ',' :: w))⟩)
    (hs1 : s1 ≠ []) (hd1 : ∀ c ∈ s1, isDigitCh c = true)
    (hs2 : s2 ≠ []) (hd2 : ∀ c ∈ s2, isDigitCh c = true) :
    handle caps cfg req env =
      handle caps cfg
        { req with rangeHeader := some ⟨"bytes=".data ++ (s1 ++ '-' :: s2)⟩ } env ∧
    ((0 ≤ clampedEnd ⟨"bytes=".data ++ (s1 ++ '-' :: (s2 ++ ',' :: w))⟩ (st.size : Int) ∧
        parsedStart ⟨"bytes=".data ++ (s1 ++ '-' :: (s2 ++ ',' :: w))⟩ ≤
          clampedEnd ⟨"bytes=".data ++ (s1 ++ '-' :: (s2 ++ ',' :: w))⟩ (st.size : Int)) →
      ∃ resp, handle caps cfg req env = Except.ok resp ∧ resp.status = 206) := by
  have hb2 : '-' ∉ s2 := digits_no_dash s2 hd2
  have hcw : breakAtDash (',' :: w) = (',' :: (breakAtDash w).1, (breakAtDash w).2) := by
    simp [breakAtDash]
  have hbk : (breakAtDash (s2 ++ ',' :: w)).1 = s2 ++ ',' :: (breakAtDash w).1 := by
    rw [breakAtDash_append_no_dash s2 (',' :: w) hb2]
    show s2 ++ (breakAtDash (',' :: w)).1 = _
    rw [hcw]
  have hj1 : jsParseInt (s2 ++ ',' :: (breakAtDash w).1) = some ((digitsVal s2 : Int)) :=
    jsParseInt_digits s2 (',' :: (breakAtDash w).1) hs2 hd2
      (Or.inr ⟨',', (breakAtDash w).1, rfl, by decide⟩)
  have hj2 : jsParseInt s2 = some ((digitsVal s2 : Int)) := by
    have h2 := jsParseInt_digits s2 [] hs2 hd2 (Or.inl rfl)
    rwa [List.append_nil] at h2
  have hps : parsedStart ⟨"bytes=".data ++ (s1 ++ '-' :: (s2 ++ ',' :: w))⟩ =
      parsedStart ⟨"bytes=".data ++ (s1 ++ '-' :: s2)⟩ := by
    rw [parsedStart_digits s1 (s2 ++ ',' :: w) hs1 hd1, parsedStart_digits s1 s2 hs1 hd1]
  have hpe : parsedEnd ⟨"bytes=".data ++ (s1 ++ '-' :: (s2 ++ ',' :: w))⟩ (st.size : Int) =
      parsedEnd ⟨"bytes=".data ++ (s1 ++ '-' :: s2)⟩ (st.size : Int) := by
    rw [parsedEnd_parts s1 (s2 ++ ',' :: w) _ hd1, hbk, hj1,
      parsedEnd_parts s1 s2 _ hd1, breakAtDash_no_dash s2 hb2]
    show _ = jsOr (jsParseInt s2) _
    rw [hj2]
  have e1 : handle caps cfg req env =
      rangeResponse (pathJoin (rootOf cfg) fixed) st
        [("Content-Type",
          (caps.mime (pathJoin (rootOf cfg) fixed)).getD "application/octet-stream")]
        ⟨"bytes=".data ++ (s1 ++ '-' :: (s2 ++ ',' :: w))⟩ := by
    rw [handle_fixed_file caps cfg req env fixed st hp hfs hdir hpre,
      respond_range req _ st _ _ hm1 hr (mk_bytes_ne_empty _)]
  have e2 : handle caps cfg
        { req with rangeHeader := some ⟨"bytes=".data ++ (s1 ++ '-' :: s2)⟩ } env =
      rangeResponse (pathJoin (rootOf cfg) fixed) st
        [("Content-Type",
          (caps.mime (pathJoin (rootOf cfg) fixed)).getD "application/octet-stream")]
        ⟨"bytes=".data ++ (s1 ++ '-' :: s2)⟩ := by
    rw [handle_fixed_file caps cfg _ env fixed st hp hfs hdir hpre,
      respond_range { req with rangeHeader := some ⟨"bytes=".data ++ (s1 ++ '-' :: s2)⟩ }
        (pathJoin (rootOf cfg) fixed) st _ ⟨"bytes=".data ++ (s1 ++ '-' :: s2)⟩
        hm1 rfl (mk_bytes_ne_empty _)]
  constructor
  · rw [e1, e2]
    exact rangeResponse_ext _ _ _ _ _ hps hpe
  · intro hwin
    have hnn : 0 ≤ parsedStart ⟨"bytes=".data ++ (s1 ++ '-' :: (s2 ++ ',' :: w))⟩ :=
      parsedStart_nonneg _
    have hvalid : ¬(parsedStart ⟨"bytes=".data ++ (s1 ++ '-' :: (s2 ++ ',' :: w))⟩ < 0 ∨
        clampedEnd ⟨"bytes=".data ++ (s1 ++ '-' :: (s2 ++ ',' :: w))⟩ (st.size : Int) < 0 ∨
        clampedEnd ⟨"bytes=".data ++ (s1 ++ '-' :: (s2 ++ ',' :: w))⟩ (st.size : Int) <
          parsedStart ⟨"bytes=".data ++ (s1 ++ '-' :: (s2 ++ ',' :: w))⟩) := by
      obtain ⟨h0e, hse⟩ := hwin
      omega
    refine ⟨rangeOkResponse (pathJoin (rootOf cfg) fixed) st
      [("Content-Type",
        (caps.mime (pathJoin (rootOf cfg) fixed)).getD "application/octet-stream")]
      ⟨"bytes=".data ++ (s1 ++ '-' :: (s2 ++ ',' :: w))⟩, ?_, rfl⟩
    rw [e1]
    exact rangeResponse_ok _ _ _ _ hvalid

/-- Witness for C9 (amended): `bytes=0-10,20-30` is served exactly like
`bytes=0-10`, and its first window is valid, so the response is a
single 206. -/
theorem c9_multirange_first_witness :
    (cfgFixed.path = some "file.txt" ∧
      demoCaps.fs (pathJoin (rootOf cfgFixed) "file.txt") = some fileStats ∧
      fileStats.isDirectory = false ∧
      cfgFixed.precompressed = false ∧
      ¬((reqGetRange rngMulti).method = "HEAD" ∨ (reqGetRange rngMulti).method = "OPTIONS") ∧
      (reqGetRange rngMulti).rangeHeader =
        some ⟨"bytes=".data ++ (['0'] ++ '-' :: (['1', '0'] ++ ',' :: ['2', '0', '-', '3', '0']))⟩ ∧
      (['0'] : List Char) ≠ [] ∧ (∀ c ∈ (['0'] : List Char), isDigitCh c = true) ∧
      (['1', '0'] : List Char) ≠ [] ∧
      (∀ c ∈ (['1', '0'] : List Char), isDigitCh c = true)) ∧
    (handle demoCaps cfgFixed (reqGetRange rngMulti) () =
      handle demoCaps cfgFixed
        { reqGetRange rngMulti with
          rangeHeader := some ⟨"bytes=".data ++ (['0'] ++ '-' :: ['1', '0'])⟩ } () ∧
    ((0 ≤ clampedEnd ⟨"bytes=".data ++
          (['0'] ++ '-' :: (['1', '0'] ++ ',' :: ['2', '0', '-', '3', '0']))⟩
        (fileStats.size : Int) ∧
      parsedStart ⟨"bytes=".data ++
          (['0'] ++ '-' :: (['1', '0'] ++ ',' :: ['2', '0', '-', '3', '0']))⟩ ≤
        clampedEnd ⟨"bytes=".data ++
            (['0'] ++ '-' :: (['1', '0'] ++ ',' :: ['2', '0', '-', '3', '0']))⟩
          (fileStats.size : Int)) →
      ∃ resp, handle demoCaps cfgFixed (reqGetRange rngMulti) () = Except.ok resp ∧
        resp.status = 206)) :=
  ⟨⟨by decide, by decide, by decide, by decide, by decide, by decide, by decide,
      by decide, by decide, by decide⟩,
    c9_multirange_first demoCaps cfgFixed (reqGetRange rngMulti) () "file.txt"
      fileStats ['0'] ['1', '0'] ['2', '0', '-', '3', '0']
      (by decide) (by decide) (by decide) (by decide) (by decide) (by decide)
      (by decide) (by decide) (by decide) (by decide)⟩

/-- **C10 counterexample.** The claim says the handler still returns a
206 with a zero-or-negative `Content-Length`; in fact for `bytes=600-`
against the 500-byte fixture file the handler returns no response at
all: the end defaults to 499 < 600, and `createReadStream`'s option
validation raises `ERR_OUT_OF_RANGE` which the source does not catch. -/
theorem c10_start_past_size_cex :
    handle demoCaps cfgFixed (reqGetRange rngPast) () =
      Except.error JsErr.rangeError := by
  rfl

/-- **C10 (amended).** For a non-HEAD, non-OPTIONS request with
`bytes=<start>-` whose start is at least the file size, the end is
defaulted to `size - 1` and the would-be chunk length `size - start` is
zero or negative; no 416 is ever produced, but neither is the 206: the
stream window has `end < start`, so `createReadStream` (line 171)
throws `ERR_OUT_OF_RANGE` and the handler rejects without any
response. -/
theorem c10_start_past_size {ε : Type} (caps : Caps) (cfg : Config ε) (req : Request)
    (env : ε) (fixed : String) (st : Stats) (s : List Char)
    (hp : cfg.path = some fixed)
    (hfs : caps.fs (pathJoin (rootOf cfg) fixed) = some st)
    (hdir : st.isDirectory = false)
    (hpre : cfg.precompressed = false)
    (hm1 : ¬(req.method = "HEAD" ∨ req.method = "OPTIONS"))
    (hr : req.rangeHeader = some ⟨"bytes=".data ++ (s ++ '-' :: [])⟩)
    (hs : s ≠ []) (hd : ∀ c ∈ s, isDigitCh c = true)
    (hbig : (st.size : Int) ≤ (digitsVal s : Int)) :
    parsedEnd ⟨"bytes=".data ++ (s ++ '-' :: [])⟩ (st.size : Int) = (st.size : Int) - 1 ∧
    (st.size : Int) - (digitsVal s : Int) ≤ 0 ∧
    handle caps cfg req env = Except.error JsErr.rangeError := by
  have hps : parsedStart ⟨"bytes=".data ++ (s ++ '-' :: [])⟩ = (digitsVal s : Int) :=
    parsedStart_digits s [] hs hd
  have hpe : parsedEnd ⟨"bytes=".data ++ (s ++ '-' :: [])⟩ (st.size : Int) =
      (st.size : Int) - 1 := by
    rw [parsedEnd_parts s [] _ hd]
    rfl
  have hcl : clampedEnd ⟨"bytes=".data ++ (s ++ '-' :: [])⟩ (st.size : Int) =
      (st.size : Int) - 1 := by
    simp only [clampedEnd]
    rw [hpe]
    exact ite_self _
  have hinvalid : parsedStart ⟨"bytes=".data ++ (s ++ '-' :: [])⟩ < 0 ∨
      clampedEnd ⟨"bytes=".data ++ (s ++ '-' :: [])⟩ (st.size : Int) < 0 ∨
      clampedEnd ⟨"bytes=".data ++ (s ++ '-' :: [])⟩ (st.size : Int) <
        parsedStart ⟨"bytes=".data ++ (s ++ '-' :: [])⟩ := by
    rw [hcl, hps]
    omega
  have e1 : handle caps cfg req env =
      rangeResponse (pathJoin (rootOf cfg) fixed) st
        [("Content-Type",
          (caps.mime (pathJoin (rootOf cfg) fixed)).getD "application/octet-stream")]
        ⟨"bytes=".data ++ (s ++ '-' :: [])⟩ := by
    rw [handle_fixed_file caps cfg req env fixed st hp hfs hdir hpre,
      respond_range req _ st _ _ hm1 hr (mk_bytes_ne_empty _)]
  refine ⟨hpe, by omega, ?_⟩
  rw [e1]
  exact rangeResponse_err _ _ _ _ hinvalid

/-- Witness for C10 (amended): `bytes=600-` against the 500-byte
fixture file defaults the end to 499, has would-be length -100, and
makes the handler throw `ERR_OUT_OF_RANGE`. -/
theorem c10_start_past_size_witness :
    (cfgFixed.path = some "file.txt" ∧
      demoCaps.fs (pathJoin (rootOf cfgFixed) "file.txt") = some fileStats ∧
      fileStats.isDirectory = false ∧
      cfgFixed.precompressed = false ∧
      ¬((reqGetRange rngPast).method = "HEAD" ∨ (reqGetRange rngPast).method = "OPTIONS") ∧
      (reqGetRange rngPast).rangeHeader =
        some ⟨"bytes=".data ++ (['6', '0', '0'] ++ '-' :: [])⟩ ∧
      (['6', '0', '0'] : List Char) ≠ [] ∧
      (∀ c ∈ (['6', '0', '0'] : List Char), isDigitCh c = true) ∧
      (fileStats.size : Int) ≤ (digitsVal ['6', '0', '0'] : Int)) ∧
    (parsedEnd ⟨"bytes=".data ++ (['6', '0', '0'] ++ '-' :: [])⟩ (fileStats.size : Int) =
        (fileStats.size : Int) - 1 ∧
      (fileStats.size : Int) - (digitsVal ['6', '0', '0'] : Int) ≤ 0 ∧
      handle demoCaps cfgFixed (reqGetRange rngPast) () =
        Except.error JsErr.rangeError) :=
  ⟨⟨by decide, by decide, by decide, by decide, by decide, by decide, by decide,
      by decide, by decide⟩,
    c10_start_past_size demoCaps cfgFixed (reqGetRange rngPast) () "file.txt"
      fileStats ['6', '0', '0'] (by decide) (by decide) (by decide) (by decide)
      (by decide) (by decide) (by decide) (by decide) (by decide)⟩

end ServeStatic
